import Mathlib

/-
Verification development for the entity-gap-analysis tool (src/app.py).

The Python program is shallowly embedded here:
* Python `dict`s become association lists (`List (String × _)`) with
  insertion-order semantics: a new key is appended at the end, an update
  keeps the key's position.  Iteration over `dict.items()` is iteration
  over the list.
* Python floats (relevance / confidence scores) are modelled as `ℚ`.
* The TextRazor client is modelled as a function
  `String → Except String (List RawEntityObservation)`; a raised exception
  is an `Except.error`.
* `st.warning` messages and the URLs passed to `client.analyze_url` are
  made explicit as `warnings` / `calls` fields so that the error-handling
  and validation behaviour of the source is observable.
-/

set_option maxHeartbeats 1000000

/-- Characters of the first list occur verbatim at the head of the second. -/
def charsPrefOf : List Char → List Char → Bool
  | [], _ => true
  | _ :: _, [] => false
  | a :: as, b :: bs => a == b && charsPrefOf as bs

/-- The first list occurs as a contiguous run somewhere inside the second. -/
def charsSubOf (pat : List Char) : List Char → Bool
  | [] => pat.isEmpty
  | b :: bs => charsPrefOf pat (b :: bs) || charsSubOf pat bs

/-- Python's substring test, the expression `pat in hay` on strings
(used at src/app.py lines 24, 26, 28). -/
def strContains (hay pat : String) : Bool :=
  charsSubOf pat.data hay.data

/-- One entry of an `EntitySummary`: the per-URL record built at
src/app.py lines 32-37. -/
structure EntityInfo where
  count : Nat
  type : String
  relevance : ℚ
  confidence : ℚ
deriving DecidableEq

/-- A raw entity observation returned by the analysis collaborator
(the fields of a TextRazor entity used by src/app.py). -/
structure RawEntityObservation where
  id : String
  confidence_score : ℚ
  relevance_score : ℚ
  freebase_types : List String
deriving DecidableEq

/-- An `EntitySummary`: Python dict from entity identity to its info,
in insertion order. -/
abbrev Summary := List (String × EntityInfo)

/-- One accumulated `MissedEntity` record (value type of the
`missed_entities` defaultdict at src/app.py line 87). -/
structure MissedInfo where
  count : Nat
  type : String
  sources : List String
deriving DecidableEq

/-- The `missed_entities` dict: entity identity to accumulated record,
in insertion order. -/
abbrev Missed := List (String × MissedInfo)

/-- Python dict lookup `d[k]` / `k in d`: first (and in a well-formed
dict, only) binding of the key. -/
def dictGet {α : Type} (d : List (String × α)) (k : String) : Option α :=
  match d with
  | [] => none
  | (a, b) :: rest => if a = k then some b else dictGet rest k

/-- Python dict assignment `d[k] = v`: update in place when the key
exists, append at the end when it does not. -/
def dictUpsert {α : Type} (d : List (String × α)) (k : String) (v : α) :
    List (String × α) :=
  match d with
  | [] => [(k, v)]
  | (a, b) :: rest => if a = k then (a, v) :: rest else (a, b) :: dictUpsert rest k v

/-- A well-formed Python dict: every key occurs at most once. -/
def IsDict {α : Type} (d : List (String × α)) : Prop :=
  (d.map Prod.fst).Nodup

instance {α : Type} (d : List (String × α)) : Decidable (IsDict d) :=
  List.nodupDecidable _

/-- The tag-classification loop body, src/app.py lines 23-29: a single
freebase tag either overwrites the current entity type or leaves it. -/
def classifyTag (cur t : String) : String :=
  if strContains t "organization" || strContains t "company" then "Organization"
  else if strContains t "person" then "Person"
  else if strContains t "location" || strContains t "place" then "Location"
  else cur

/-- Entity-type classification, src/app.py lines 21-29: start from
"Other" and fold the tag loop over the observation's freebase tags
(an empty tag list skips the loop and keeps "Other"). -/
def entityType (tags : List String) : String :=
  tags.foldl classifyTag "Other"

/-- Loop body of the extractor, src/app.py lines 16-39: skip a low
confidence or low relevance observation, classify the rest, insert a new
identity with count 1 or increment the count of an existing identity. -/
def processObservation (acc : Summary) (e : RawEntityObservation) : Summary :=
  if e.confidence_score < 1/2 ∨ e.relevance_score < 1/5 then acc
  else
    match dictGet acc e.id with
    | none =>
        acc ++ [(e.id, ⟨1, entityType e.freebase_types, e.relevance_score, e.confidence_score⟩)]
    | some info =>
        dictUpsert acc e.id ⟨info.count + 1, info.type, info.relevance, info.confidence⟩

/-- Result of `extract_entities`: the summary the Python function
returns, plus the `st.warning` messages it emits and the URLs it passes
to `client.analyze_url`, made explicit. -/
structure ExtractResult where
  entities : Summary
  warnings : List String
  calls : List String
deriving DecidableEq

/-- `extract_entities(url, client)`, src/app.py lines 6-44: analyze the
URL and fold the observation loop; any failure of the client is caught,
reported as a warning naming the URL, and yields an empty summary. -/
def extract_entities (client : String → Except String (List RawEntityObservation))
    (url : String) : ExtractResult :=
  match client url with
  | Except.ok obs => ⟨obs.foldl processObservation [], [], [url]⟩
  | Except.error e => ⟨[], ["Error processing " ++ url ++ ": " ++ e], [url]⟩

/-- Body of the accumulation loops, src/app.py lines 90-95: one entity
of one competitor summary is folded into the `missed_entities` dict when
it is absent from the main summary (`defaultdict` semantics: a missing
key starts from count 0, empty type, no sources). -/
def innerStep (main : Summary) (url : String) (acc : Missed)
    (p : String × EntityInfo) : Missed :=
  if dictGet main p.1 = none then
    let cur := (dictGet acc p.1).getD ⟨0, "", []⟩
    dictUpsert acc p.1 ⟨cur.count + p.2.count, p.2.type, cur.sources ++ [url]⟩
  else acc

/-- Inner loop of src/app.py lines 89-95 for one competitor URL. -/
def accumStep (main : Summary) (acc : Missed) (c : String × Summary) : Missed :=
  c.2.foldl (innerStep main c.1) acc

/-- The accumulation of src/app.py lines 87-95: fold every competitor
summary, in iteration order, into the `missed_entities` dict. -/
def accumulate (main : Summary) (comps : List (String × Summary)) : Missed :=
  comps.foldl (accumStep main) []

/-- Coverage policies of spec §4.2.  The source implements exactly one,
`MULTIPLE` (the literal `found_in_count >= 2` test at src/app.py
line 102). -/
inductive Mode where
  | ANY
  | MULTIPLE
  | ALL
deriving DecidableEq

/-- Coverage predicate of a mode, applied to the number of competitor
summaries `n` and to `len(sources)`.  `MULTIPLE` is translated from
src/app.py line 102.  Modelled from the spec: the `ANY` and `ALL`
policies are absent from the source; they follow §4.2's words ("at
least one competitor summary" and "every one of the N competitor
summaries"). -/
def modePred : Mode → Nat → Nat → Bool
  | Mode.ANY, _, k => decide (1 ≤ k)
  | Mode.MULTIPLE, _, k => decide (2 ≤ k)
  | Mode.ALL, n, k => decide (n ≤ k)

/-- One report row, the record appended at src/app.py lines 103-109. -/
structure Row where
  entity : String
  type : String
  totalMentions : Nat
  foundIn : Nat
  sources : String
deriving DecidableEq

/-- Build the row for one surviving missed-entity record
(src/app.py lines 103-109). -/
def mkRow (p : String × MissedInfo) : Row :=
  ⟨p.1, p.2.type, p.2.count, p.2.sources.length, String.intercalate ", " p.2.sources⟩

/-- `df_data`, src/app.py lines 98-109: iterate the missed-entity dict
in order and keep the rows whose source count satisfies the coverage
predicate.  (The source then sorts this list by Total Mentions via
pandas before display; the sort only permutes rows.) -/
def gapRows (mode : Mode) (n : Nat) (missed : Missed) : List Row :=
  missed.filterMap (fun p =>
    if modePred mode n p.2.sources.length then some (mkRow p) else none)

/-- Outcome of `main()`: either an input-validation error message
(src/app.py lines 61-69, where the Python function shows the message
and returns early) or the computed report rows and warnings. -/
inductive RunResult where
  | invalid (msg : String)
  | done (rows : List Row) (warnings : List String)
deriving DecidableEq

/-- The analysis run of `main()` after the Analyze button, src/app.py
lines 60-109: validate the three inputs, extract the main URL, extract
every competitor URL in order (building the competitor dict, so a
duplicate URL is re-analyzed but keeps one dict entry), accumulate and
filter.  The second component is the list of URLs passed to the client,
in call order. -/
def runAnalysis (client : String → Except String (List RawEntityObservation))
    (apiKey mainUrl : String) (curls : List String) : RunResult × List String :=
  if apiKey = "" then (RunResult.invalid "Please provide your TextRazor API key.", [])
  else if mainUrl = "" then (RunResult.invalid "Please provide the main URL.", [])
  else if curls = [] then (RunResult.invalid "Please provide at least one competitor URL.", [])
  else
    let mainR := extract_entities client mainUrl
    let compRs := curls.map (fun u => (u, extract_entities client u))
    let compDict := compRs.foldl (fun d p => dictUpsert d p.1 p.2.entities) ([] : List (String × Summary))
    let missed := accumulate mainR.entities compDict
    let rows := gapRows Mode.MULTIPLE compDict.length missed
    (RunResult.done rows (mainR.warnings ++ (compRs.map (fun p => p.2.warnings)).flatten),
     mainR.calls ++ (compRs.map (fun p => p.2.calls)).flatten)

/-- Competitor summaries that actually contain the entity, in iteration
order. -/
def occ (comps : List (String × Summary)) (eid : String) :
    List (String × Summary) :=
  comps.filter (fun c => (dictGet c.2 eid).isSome)

/-- Count of an optional summary entry (0 when absent). -/
def optCount : Option EntityInfo → Nat
  | some i => i.count
  | none => 0

/-- Type of an optional summary entry (empty when absent). -/
def optType : Option EntityInfo → String
  | some i => i.type
  | none => ""

/-- Sum of the entity's counts over the competitor summaries in which it
occurs. -/
def totalCount (comps : List (String × Summary)) (eid : String) : Nat :=
  ((occ comps eid).map (fun c => optCount (dictGet c.2 eid))).sum

/-- The entity's type in the last competitor summary (in iteration
order) that contains it; empty when no summary does. -/
def typeLast (comps : List (String × Summary)) (eid : String) : String :=
  (((occ comps eid).getLast?).map (fun c => optType (dictGet c.2 eid))).getD ""

/-- Per-entity replay of the accumulation: what one competitor summary
does to the optional missed-entity record of a fixed entity. -/
def missedStep (eid : String) (m : Option MissedInfo) (c : String × Summary) :
    Option MissedInfo :=
  match dictGet c.2 eid with
  | none => m
  | some info =>
      let cur := m.getD ⟨0, "", []⟩
      some ⟨cur.count + info.count, info.type, cur.sources ++ [c.1]⟩

/-- Spec-side category of a single tag, worded after the spec: a tag
containing "organization" or "company" is an Organization tag, one
containing "person" a Person tag, one containing "location" or "place" a
Location tag (in that fixed priority within one tag), anything else
matches no category. -/
def specTagCategory (t : String) : Option String :=
  if strContains t "organization" || strContains t "company" then some "Organization"
  else if strContains t "person" then some "Person"
  else if strContains t "location" || strContains t "place" then some "Location"
  else none

/-- Scenario data: empty main summary. -/
def exMain : Summary := []

/-- Scenario data (spec Scenario 2): X on two competitors, Y on one. -/
def exComps : List (String × Summary) :=
  [("u1", [("X", ⟨1, "Other", 1, 1⟩)]),
   ("u2", [("X", ⟨2, "Other", 1, 1⟩)]),
   ("u3", [("Y", ⟨5, "Other", 1, 1⟩)])]

/-- Witness data: Z on two competitors with different types. -/
def exComps2 : List (String × Summary) :=
  [("u1", [("Z", ⟨2, "Person", 1, 1⟩)]),
   ("u2", [("Z", ⟨3, "Location", 1, 1⟩)])]

/-- The single report row produced from `exComps2`. -/
def exRowZ : Row := ⟨"Z", "Location", 5, 2, "u1, u2"⟩

/-- Counterexample data: a single competitor mentioning X once. -/
def cexComps : List (String × Summary) :=
  [("u1", [("X", ⟨1, "Other", 1, 1⟩)])]

/-- A raw observation failing the retention filter (confidence 0). -/
def obsLo : RawEntityObservation := ⟨"lo", 0, 1, []⟩

/-- A raw observation passing the retention filter (scores exactly at
the thresholds). -/
def obsHi : RawEntityObservation := ⟨"hi", 1/2, 1/5, []⟩

/-- A client returning the two observations above for every URL. -/
def clientOk : String → Except String (List RawEntityObservation) :=
  fun _ => Except.ok [obsLo, obsHi]

/-- A repeat observation of an identity already in a summary. -/
def obsRep : RawEntityObservation := ⟨"e1", 1/2, 1/5, []⟩

/-- The summary entry recorded for that identity. -/
def infoRep : EntityInfo := ⟨1, "Other", 1/5, 1/2⟩

/-- A summary already containing the repeated identity. -/
def accRep : Summary := [("e1", infoRep)]

/-- A client failing on one URL and succeeding on every other. -/
def clientErr : String → Except String (List RawEntityObservation) :=
  fun u => if u = "bad" then Except.error "boom" else Except.ok []

/-- A client returning no observations, for validation witnesses. -/
def clientNone : String → Except String (List RawEntityObservation) :=
  fun _ => Except.ok []

theorem dictGet_cons {α : Type} (a : String) (b : α) (d : List (String × α)) (k : String) :
    dictGet ((a, b) :: d) k = if a = k then some b else dictGet d k := rfl

theorem dictGet_upsert_self {α : Type} (d : List (String × α)) (k : String) (v : α) :
    dictGet (dictUpsert d k v) k = some v := by
  induction d with
  | nil => simp [dictUpsert, dictGet]
  | cons p rest ih =>
      obtain ⟨a, b⟩ := p
      by_cases h : a = k
      · subst h
        simp [dictUpsert, dictGet]
      · simp [dictUpsert, dictGet, h, ih]

theorem dictGet_upsert_ne {α : Type} (d : List (String × α)) (a k : String) (v : α)
    (h : a ≠ k) : dictGet (dictUpsert d k v) a = dictGet d a := by
  induction d with
  | nil =>
      simp only [dictUpsert, dictGet]
      rw [if_neg (fun hk : k = a => h hk.symm)]
  | cons p rest ih =>
      obtain ⟨x, y⟩ := p
      by_cases hx : x = k
      · subst hx
        simp only [dictUpsert, if_pos rfl, dictGet]
        rw [if_neg (fun hk : x = a => h hk.symm), if_neg (fun hk : x = a => h hk.symm)]
      · simp only [dictUpsert, if_neg hx, dictGet]
        by_cases hxa : x = a
        · rw [if_pos hxa, if_pos hxa]
        · rw [if_neg hxa, if_neg hxa, ih]

theorem keys_upsert {α : Type} (d : List (String × α)) (k : String) (v : α) :
    (dictUpsert d k v).map Prod.fst =
      if k ∈ d.map Prod.fst then d.map Prod.fst else d.map Prod.fst ++ [k] := by
  induction d with
  | nil => simp [dictUpsert]
  | cons p rest ih =>
      obtain ⟨a, b⟩ := p
      by_cases h : a = k
      · subst h
        simp [dictUpsert]
      · have hka : ¬ (k = a) := fun hk => h hk.symm
        simp only [dictUpsert, if_neg h, List.map_cons, ih, List.mem_cons, hka, false_or]
        by_cases hmem : k ∈ rest.map Prod.fst
        · simp [hmem]
        · simp [hmem]

theorem isDict_upsert {α : Type} (d : List (String × α)) (k : String) (v : α)
    (h : IsDict d) : IsDict (dictUpsert d k v) := by
  unfold IsDict at h ⊢
  rw [keys_upsert]
  by_cases hmem : k ∈ d.map Prod.fst
  · rw [if_pos hmem]
    exact h
  · rw [if_neg hmem]
    exact List.nodup_append.mpr ⟨h, List.nodup_singleton k,
      fun a ha hb => hmem ((List.mem_singleton.mp hb) ▸ ha)⟩

theorem dictGet_isSome_iff_mem {α : Type} (d : List (String × α)) (k : String) :
    (dictGet d k).isSome = true ↔ k ∈ d.map Prod.fst := by
  induction d with
  | nil => simp [dictGet]
  | cons p rest ih =>
      obtain ⟨a, b⟩ := p
      by_cases h : a = k
      · subst h
        simp [dictGet]
      · have hka : ¬ (k = a) := fun hk => h hk.symm
        simp [dictGet, h, ih, hka]

theorem dictGet_eq_none_of_not_mem {α : Type} (d : List (String × α)) (k : String)
    (h : k ∉ d.map Prod.fst) : dictGet d k = none := by
  cases hd : dictGet d k with
  | none => rfl
  | some v =>
      exact absurd ((dictGet_isSome_iff_mem d k).mp (by simp [hd])) h

theorem mem_iff_dictGet {α : Type} (d : List (String × α)) (k : String) (v : α)
    (h : IsDict d) : (k, v) ∈ d ↔ dictGet d k = some v := by
  induction d with
  | nil => simp [dictGet]
  | cons p rest ih =>
      obtain ⟨a, b⟩ := p
      have hnd := List.nodup_cons.mp h
      by_cases hak : a = k
      · subst hak
        simp only [dictGet, if_pos rfl, List.mem_cons]
        constructor
        · rintro (heq | hmem)
          · injection heq with h1 h2
            rw [h2]
            simp
          · exact absurd (List.mem_map_of_mem Prod.fst hmem) hnd.1
        · intro hv
          exact Or.inl (by rw [Option.some_inj.mp hv])
      · have hne : ((k, v) : String × α) ≠ (a, b) :=
          fun he => hak (congrArg Prod.fst he).symm
        simp only [dictGet, if_neg hak, List.mem_cons, hne, false_or]
        exact ih hnd.2

theorem innerStep_get_ne (main : Summary) (url : String) (acc : Missed)
    (p : String × EntityInfo) (eid : String) (h : p.1 ≠ eid) :
    dictGet (innerStep main url acc p) eid = dictGet acc eid := by
  unfold innerStep
  by_cases hm : dictGet main p.1 = none
  · rw [if_pos hm]
    exact dictGet_upsert_ne _ _ _ _ (fun he => h he.symm)
  · rw [if_neg hm]

theorem innerStep_get_self (main : Summary) (url : String) (acc : Missed)
    (eid : String) (info : EntityInfo) :
    dictGet (innerStep main url acc (eid, info)) eid =
      if dictGet main eid = none then
        some ⟨((dictGet acc eid).getD ⟨0, "", []⟩).count + info.count, info.type,
              ((dictGet acc eid).getD ⟨0, "", []⟩).sources ++ [url]⟩
      else dictGet acc eid := by
  unfold innerStep
  by_cases hm : dictGet main eid = none
  · rw [if_pos hm, if_pos hm, dictGet_upsert_self]
  · rw [if_neg hm, if_neg hm]

theorem foldl_innerStep_not_mem (main : Summary) (url : String) (es : Summary)
    (eid : String) (h : eid ∉ es.map Prod.fst) :
    ∀ acc : Missed, dictGet (es.foldl (innerStep main url) acc) eid = dictGet acc eid := by
  induction es with
  | nil => intro acc; rfl
  | cons p rest ih =>
      intro acc
      have hp : p.1 ≠ eid := fun he => h (by simp [← he])
      have hrest : eid ∉ rest.map Prod.fst := fun hm => h (by simp [hm])
      rw [List.foldl_cons, ih hrest, innerStep_get_ne _ _ _ _ _ hp]

theorem foldl_innerStep_get (main : Summary) (url : String) (es : Summary)
    (hnd : IsDict es) (eid : String) :
    ∀ acc : Missed,
      dictGet (es.foldl (innerStep main url) acc) eid =
        if dictGet main eid = none then
          missedStep eid (dictGet acc eid) (url, es)
        else dictGet acc eid := by
  induction es with
  | nil =>
      intro acc
      simp [missedStep, dictGet]
  | cons p rest ih =>
      intro acc
      obtain ⟨k, v⟩ := p
      have hk : k ∉ rest.map Prod.fst := (List.nodup_cons.mp hnd).1
      have hrest : IsDict rest := (List.nodup_cons.mp hnd).2
      rw [List.foldl_cons]
      by_cases hke : k = eid
      · subst hke
        rw [foldl_innerStep_not_mem main url rest k hk, innerStep_get_self]
        by_cases hm : dictGet main k = none
        · rw [if_pos hm, if_pos hm]
          simp [missedStep, dictGet_cons]
        · rw [if_neg hm, if_neg hm]
      · rw [ih hrest, innerStep_get_ne main url acc (k, v) eid hke]
        by_cases hm : dictGet main eid = none
        · rw [if_pos hm, if_pos hm]
          simp [missedStep, dictGet_cons, hke]
        · rw [if_neg hm, if_neg hm]

theorem accumStep_get (main : Summary) (acc : Missed) (c : String × Summary)
    (hnd : IsDict c.2) (eid : String) :
    dictGet (accumStep main acc c) eid =
      if dictGet main eid = none then missedStep eid (dictGet acc eid) c
      else dictGet acc eid := by
  obtain ⟨url, es⟩ := c
  exact foldl_innerStep_get main url es hnd eid acc

theorem foldl_accumStep_get (main : Summary) (comps : List (String × Summary))
    (hd : ∀ c ∈ comps, IsDict c.2) (eid : String) :
    ∀ acc : Missed,
      dictGet (comps.foldl (accumStep main) acc) eid =
        if dictGet main eid = none then
          comps.foldl (missedStep eid) (dictGet acc eid)
        else dictGet acc eid := by
  induction comps with
  | nil =>
      intro acc
      simp
  | cons c cs ih =>
      intro acc
      rw [List.foldl_cons, List.foldl_cons,
        ih (fun x hx => hd x (List.mem_cons_of_mem c hx)),
        accumStep_get main acc c (hd c (List.mem_cons_self c cs)) eid]
      by_cases hm : dictGet main eid = none
      · rw [if_pos hm, if_pos hm, if_pos hm]
      · rw [if_neg hm, if_neg hm, if_neg hm]

theorem accumulate_get_replay (main : Summary) (comps : List (String × Summary))
    (hd : ∀ c ∈ comps, IsDict c.2) (eid : String) :
    dictGet (accumulate main comps) eid =
      if dictGet main eid = none then comps.foldl (missedStep eid) none
      else none := by
  have h := foldl_accumStep_get main comps hd eid []
  simpa [accumulate, dictGet] using h

theorem occ_cons_none (c : String × Summary) (cs : List (String × Summary))
    (eid : String) (hg : dictGet c.2 eid = none) :
    occ (c :: cs) eid = occ cs eid := by
  simp [occ, List.filter_cons, hg]

theorem occ_cons_some (c : String × Summary) (cs : List (String × Summary))
    (eid : String) (info : EntityInfo) (hg : dictGet c.2 eid = some info) :
    occ (c :: cs) eid = c :: occ cs eid := by
  simp [occ, List.filter_cons, hg]

theorem foldl_missedStep_closed (eid : String) (comps : List (String × Summary)) :
    ∀ m : Option MissedInfo,
      comps.foldl (missedStep eid) m =
        if occ comps eid = [] then m
        else some ⟨(m.getD ⟨0, "", []⟩).count + totalCount comps eid,
                   (((occ comps eid).getLast?).map
                       (fun c => optType (dictGet c.2 eid))).getD
                     ((m.getD ⟨0, "", []⟩).type),
                   (m.getD ⟨0, "", []⟩).sources ++ (occ comps eid).map Prod.fst⟩ := by
  induction comps with
  | nil =>
      intro m
      simp [occ]
  | cons c cs ih =>
      intro m
      rw [List.foldl_cons]
      cases hg : dictGet c.2 eid with
      | none =>
          have hstep : missedStep eid m c = m := by
            simp [missedStep, hg]
          rw [hstep, ih m, occ_cons_none c cs eid hg]
          simp only [totalCount, occ_cons_none c cs eid hg]
      | some info =>
          have hocc := occ_cons_some c cs eid info hg
          have hstep : missedStep eid m c =
              some ⟨(m.getD ⟨0, "", []⟩).count + info.count, info.type,
                    (m.getD ⟨0, "", []⟩).sources ++ [c.1]⟩ := by
            simp [missedStep, hg]
          rw [hstep, ih, hocc]
          by_cases hocs : occ cs eid = []
          · rw [if_pos hocs, if_neg (by simp [hocs])]
            simp [totalCount, hocc, hocs, optType, optCount, hg]
          · rw [if_neg hocs, if_neg (by simp)]
            obtain ⟨b, t, hbt⟩ := List.exists_cons_of_ne_nil hocs
            have htc : totalCount (c :: cs) eid = info.count + totalCount cs eid := by
              simp [totalCount, hocc, optCount, hg]
            have hlast : (c :: occ cs eid).getLast? = (occ cs eid).getLast? := by
              rw [hbt]
              exact List.getLast?_cons_cons
            have hsome : ∃ z, (occ cs eid).getLast? = some z := by
              rw [hbt]
              cases hz : (b :: t).getLast? with
              | none => exact absurd (List.getLast?_eq_none_iff.mp hz) (by simp)
              | some z => exact ⟨z, rfl⟩
            obtain ⟨z, hz⟩ := hsome
            rw [htc, hlast, hz]
            simp [Nat.add_assoc]

theorem accumulate_get (main : Summary) (comps : List (String × Summary))
    (hd : ∀ c ∈ comps, IsDict c.2) (eid : String) :
    dictGet (accumulate main comps) eid =
      if dictGet main eid = none ∧ occ comps eid ≠ [] then
        some ⟨totalCount comps eid, typeLast comps eid, (occ comps eid).map Prod.fst⟩
      else none := by
  rw [accumulate_get_replay main comps hd eid, foldl_missedStep_closed eid comps none]
  by_cases hm : dictGet main eid = none
  · by_cases hocc : occ comps eid = []
    · simp [hm, hocc]
    · simp [hm, hocc, typeLast]
  · simp [hm]

theorem isDict_innerStep (main : Summary) (url : String) (acc : Missed)
    (p : String × EntityInfo) (h : IsDict acc) : IsDict (innerStep main url acc p) := by
  unfold innerStep
  by_cases hm : dictGet main p.1 = none
  · rw [if_pos hm]
    exact isDict_upsert _ _ _ h
  · rw [if_neg hm]
    exact h

theorem isDict_accumStep (main : Summary) (c : String × Summary) :
    ∀ acc : Missed, IsDict acc → IsDict (accumStep main acc c) := by
  obtain ⟨url, es⟩ := c
  unfold accumStep
  induction es with
  | nil => exact fun acc h => h
  | cons p rest ih =>
      intro acc h
      rw [List.foldl_cons]
      exact ih _ (isDict_innerStep main url acc p h)

theorem isDict_accumulate (main : Summary) (comps : List (String × Summary)) :
    IsDict (accumulate main comps) := by
  unfold accumulate
  have step : ∀ cs : List (String × Summary), ∀ acc : Missed, IsDict acc →
      IsDict (cs.foldl (accumStep main) acc) := by
    intro cs
    induction cs with
    | nil => exact fun acc h => h
    | cons c rest ih =>
        intro acc h
        rw [List.foldl_cons]
        exact ih _ (isDict_accumStep main c acc h)
  exact step comps [] List.nodup_nil

theorem mem_gapRows_iff (mode : Mode) (n : Nat) (missed : Missed) (row : Row) :
    row ∈ gapRows mode n missed ↔
      ∃ p ∈ missed, modePred mode n p.2.sources.length = true ∧ row = mkRow p := by
  unfold gapRows
  rw [List.mem_filterMap]
  constructor
  · rintro ⟨p, hp, hsome⟩
    by_cases hpred : modePred mode n p.2.sources.length = true
    · rw [if_pos hpred] at hsome
      exact ⟨p, hp, hpred, (Option.some_inj.mp hsome).symm⟩
    · rw [if_neg hpred] at hsome
      cases hsome
  · rintro ⟨p, hp, hpred, rfl⟩
    exact ⟨p, hp, by rw [if_pos hpred]⟩

theorem gapRows_mono (m1 m2 : Mode) (n : Nat) (missed : Missed)
    (himp : ∀ k, modePred m1 n k = true → modePred m2 n k = true) :
    ∀ row ∈ gapRows m1 n missed, row ∈ gapRows m2 n missed := by
  intro row hrow
  obtain ⟨p, hp, hpred, rfl⟩ := (mem_gapRows_iff m1 n missed _).mp hrow
  exact (mem_gapRows_iff m2 n missed _).mpr ⟨p, hp, himp _ hpred, rfl⟩

/-- Claim C1: an entity identity appears in the gap report exactly when
it is absent from the main summary and its competitor coverage (the
number of competitor summaries containing it, all with distinct URLs)
satisfies the implemented MULTIPLE coverage predicate, at least 2. -/
theorem gap_report_mem_iff (main : Summary) (comps : List (String × Summary))
    (hd : ∀ c ∈ comps, IsDict c.2)
    (_hnd : (comps.map Prod.fst).Nodup) (eid : String) :
    (∃ row ∈ gapRows Mode.MULTIPLE comps.length (accumulate main comps),
        row.entity = eid) ↔
      (dictGet main eid = none ∧ 2 ≤ (occ comps eid).length) := by
  constructor
  · rintro ⟨row, hrow, hent⟩
    obtain ⟨p, hp, hpred, rfl⟩ :=
      (mem_gapRows_iff Mode.MULTIPLE comps.length _ row).mp hrow
    have hget := (mem_iff_dictGet _ _ _ (isDict_accumulate main comps)).mp hp
    rw [accumulate_get main comps hd p.1] at hget
    by_cases hcond : dictGet main p.1 = none ∧ occ comps p.1 ≠ []
    · rw [if_pos hcond] at hget
      have hent' : p.1 = eid := hent
      subst hent'
      have hp2 := (Option.some_inj.mp hget).symm
      refine ⟨hcond.1, ?_⟩
      have hlen : 2 ≤ p.2.sources.length := by
        simpa [modePred] using hpred
      rw [hp2] at hlen
      simpa using hlen
    · rw [if_neg hcond] at hget
      cases hget
  · rintro ⟨hmain, hlen⟩
    have hocc : occ comps eid ≠ [] := by
      intro h0
      rw [h0] at hlen
      simp at hlen
    have hget : dictGet (accumulate main comps) eid =
        some ⟨totalCount comps eid, typeLast comps eid, (occ comps eid).map Prod.fst⟩ := by
      rw [accumulate_get main comps hd eid, if_pos ⟨hmain, hocc⟩]
    have hp := (mem_iff_dictGet _ _ _ (isDict_accumulate main comps)).mpr hget
    refine ⟨mkRow (eid, ⟨totalCount comps eid, typeLast comps eid, (occ comps eid).map Prod.fst⟩), ?_, rfl⟩
    exact (mem_gapRows_iff Mode.MULTIPLE comps.length _ _).mpr
      ⟨_, hp, by simpa [modePred] using hlen, rfl⟩

theorem gap_report_mem_iff_witness :
    ∃ row ∈ gapRows Mode.MULTIPLE exComps.length (accumulate exMain exComps),
      row.entity = "X" :=
  (gap_report_mem_iff exMain exComps (by decide) (by decide) "X").mpr
    ⟨by decide, by decide⟩

/-- Claim C2 counterexample: with a single competitor summary the ALL
output contains a row (X, found in 1 of 1) that the MULTIPLE output does
not, so "ALL output ⊆ MULTIPLE output for the same inputs" fails as
stated. -/
theorem coverage_modes_cex :
    gapRows Mode.ALL cexComps.length (accumulate exMain cexComps)
        = [⟨"X", "Other", 1, 1, "u1"⟩]
    ∧ gapRows Mode.MULTIPLE cexComps.length (accumulate exMain cexComps) = [] := by
  decide

/-- Claim C2 (amended): under the spec-modelled ANY mode every entity in
at least one competitor summary and absent from the main summary appears
in the output; MULTIPLE output ⊆ ANY output always; and ALL output ⊆
MULTIPLE output whenever at least two competitor summaries are supplied
(with a single competitor the inclusion fails, see the
counterexample). -/
theorem coverage_modes (main : Summary) (comps : List (String × Summary))
    (hd : ∀ c ∈ comps, IsDict c.2) :
    (∀ eid : String, dictGet main eid = none →
        (∃ c ∈ comps, (dictGet c.2 eid).isSome = true) →
        ∃ row ∈ gapRows Mode.ANY comps.length (accumulate main comps), row.entity = eid)
    ∧ (∀ row ∈ gapRows Mode.MULTIPLE comps.length (accumulate main comps),
        row ∈ gapRows Mode.ANY comps.length (accumulate main comps))
    ∧ (2 ≤ comps.length →
        ∀ row ∈ gapRows Mode.ALL comps.length (accumulate main comps),
          row ∈ gapRows Mode.MULTIPLE comps.length (accumulate main comps)) := by
  refine ⟨?_, ?_, ?_⟩
  · intro eid hmain hex
    obtain ⟨c, hc, hsome⟩ := hex
    have hocc : occ comps eid ≠ [] := by
      intro h0
      have : c ∈ occ comps eid := List.mem_filter.mpr ⟨hc, hsome⟩
      rw [h0] at this
      cases this
    have hget : dictGet (accumulate main comps) eid =
        some ⟨totalCount comps eid, typeLast comps eid, (occ comps eid).map Prod.fst⟩ := by
      rw [accumulate_get main comps hd eid, if_pos ⟨hmain, hocc⟩]
    have hp := (mem_iff_dictGet _ _ _ (isDict_accumulate main comps)).mpr hget
    refine ⟨mkRow (eid, ⟨totalCount comps eid, typeLast comps eid, (occ comps eid).map Prod.fst⟩), ?_, rfl⟩
    refine (mem_gapRows_iff Mode.ANY comps.length _ _).mpr ⟨_, hp, ?_, rfl⟩
    have : 0 < (occ comps eid).length := List.length_pos.mpr hocc
    simpa [modePred] using this
  · exact gapRows_mono Mode.MULTIPLE Mode.ANY comps.length _
      (fun k hk => by simp [modePred] at hk ⊢; omega)
  · intro h2
    exact gapRows_mono Mode.ALL Mode.MULTIPLE comps.length _
      (fun k hk => by simp [modePred] at hk ⊢; omega)

theorem coverage_modes_witness :
    ∃ row ∈ gapRows Mode.ANY exComps.length (accumulate exMain exComps),
      row.entity = "Y" :=
  (coverage_modes exMain exComps (by decide)).1 "Y" (by decide) (by decide)

/-- Claim C6: every row of the gap report belongs to an entity absent
from the main summary, its totalMentions is the sum of the entity's
count over the competitor summaries containing it, and its type is the
one recorded in the last such summary in iteration order. -/
theorem row_fields (main : Summary) (comps : List (String × Summary))
    (hd : ∀ c ∈ comps, IsDict c.2) (row : Row)
    (hrow : row ∈ gapRows Mode.MULTIPLE comps.length (accumulate main comps)) :
    dictGet main row.entity = none
    ∧ row.totalMentions = totalCount comps row.entity
    ∧ ((occ comps row.entity).getLast?).map (fun c => optType (dictGet c.2 row.entity))
        = some row.type := by
  obtain ⟨p, hp, hpred, rfl⟩ :=
    (mem_gapRows_iff Mode.MULTIPLE comps.length _ row).mp hrow
  have hget := (mem_iff_dictGet _ _ _ (isDict_accumulate main comps)).mp hp
  rw [accumulate_get main comps hd p.1] at hget
  by_cases hcond : dictGet main p.1 = none ∧ occ comps p.1 ≠ []
  · rw [if_pos hcond] at hget
    have hp2 := (Option.some_inj.mp hget).symm
    have hsome : ∃ z, ((occ comps p.1).getLast?) = some z := by
      obtain ⟨b, t, hbt⟩ := List.exists_cons_of_ne_nil hcond.2
      rw [hbt]
      cases hz : (b :: t).getLast? with
      | none => exact absurd (List.getLast?_eq_none_iff.mp hz) (by simp)
      | some z => exact ⟨z, rfl⟩
    obtain ⟨z, hz⟩ := hsome
    refine ⟨by simpa [mkRow] using hcond.1, ?_, ?_⟩
    · simp [mkRow, hp2]
    · simp [mkRow, hp2, typeLast, hz]
  · rw [if_neg hcond] at hget
    cases hget

theorem row_fields_witness :
    dictGet exMain exRowZ.entity = none
    ∧ exRowZ.totalMentions = totalCount exComps2 exRowZ.entity
    ∧ ((occ exComps2 exRowZ.entity).getLast?).map
        (fun c => optType (dictGet c.2 exRowZ.entity)) = some exRowZ.type :=
  row_fields exMain exComps2 (by decide) exRowZ (by decide)

theorem processObservation_skip (acc : Summary) (o : RawEntityObservation)
    (h : o.confidence_score < 1/2 ∨ o.relevance_score < 1/5) :
    processObservation acc o = acc := by
  unfold processObservation
  rw [if_pos h]

theorem keys_processObservation_mono (acc : Summary) (o : RawEntityObservation)
    (k : String) (h : k ∈ acc.map Prod.fst) :
    k ∈ (processObservation acc o).map Prod.fst := by
  unfold processObservation
  by_cases hskip : o.confidence_score < 1/2 ∨ o.relevance_score < 1/5
  · rw [if_pos hskip]
    exact h
  · rw [if_neg hskip]
    cases hget : dictGet acc o.id with
    | none =>
        rw [List.map_append]
        exact List.mem_append_left _ h
    | some info =>
        rw [keys_upsert]
        by_cases hmem : o.id ∈ acc.map Prod.fst
        · rw [if_pos hmem]
          exact h
        · rw [if_neg hmem]
          exact List.mem_append_left _ h

theorem processObservation_mem_self (acc : Summary) (o : RawEntityObservation)
    (hc : 1/2 ≤ o.confidence_score) (hr : 1/5 ≤ o.relevance_score) :
    o.id ∈ (processObservation acc o).map Prod.fst := by
  unfold processObservation
  rw [if_neg (by push_neg; exact ⟨hc, hr⟩)]
  cases hget : dictGet acc o.id with
  | none =>
      rw [List.map_append]
      exact List.mem_append_right _ (by simp)
  | some info =>
      rw [keys_upsert]
      have hmem : o.id ∈ acc.map Prod.fst :=
        (dictGet_isSome_iff_mem acc o.id).mp (by simp [hget])
      rw [if_pos hmem]
      exact hmem

theorem foldl_keys_mono (l : List RawEntityObservation) :
    ∀ acc : Summary, ∀ k : String, k ∈ acc.map Prod.fst →
      k ∈ (l.foldl processObservation acc).map Prod.fst := by
  induction l with
  | nil => exact fun acc k h => h
  | cons o rest ih =>
      intro acc k h
      rw [List.foldl_cons]
      exact ih _ k (keys_processObservation_mono acc o k h)

/-- Claim C4: an observation with confidence below 0.5 or relevance
below 0.2 contributes nothing to the extractor's summary (the result is
the one computed without it), while an observation meeting both
thresholds always leaves its identity present in the summary. -/
theorem retention_filter (client : String → Except String (List RawEntityObservation))
    (url : String) (pre post : List RawEntityObservation) (o : RawEntityObservation)
    (h : client url = Except.ok (pre ++ o :: post)) :
    (o.confidence_score < 1/2 ∨ o.relevance_score < 1/5 →
        (extract_entities client url).entities = (pre ++ post).foldl processObservation [])
    ∧ (1/2 ≤ o.confidence_score → 1/5 ≤ o.relevance_score →
        o.id ∈ ((extract_entities client url).entities.map Prod.fst)) := by
  have hext : (extract_entities client url).entities =
      (pre ++ o :: post).foldl processObservation [] := by
    unfold extract_entities
    rw [h]
  constructor
  · intro hskip
    rw [hext, List.foldl_append, List.foldl_append, List.foldl_cons,
      processObservation_skip _ o hskip]
  · intro hc hr
    rw [hext, List.foldl_append, List.foldl_cons]
    exact foldl_keys_mono post _ o.id
      (processObservation_mem_self (pre.foldl processObservation []) o hc hr)

theorem retention_filter_witness :
    obsHi.id ∈ ((extract_entities clientOk "u").entities.map Prod.fst) :=
  (retention_filter clientOk "u" [obsLo] [] obsHi rfl).2
    (by norm_num [obsHi]) (by norm_num [obsHi])

/-- Claim C5: when a retained observation's identity already exists in
the summary being built, the recorded entry changes only by incrementing
count; type, relevance and confidence stay as first recorded, and every
other key of the summary is untouched. -/
theorem repeat_mention (acc : Summary) (o : RawEntityObservation) (info : EntityInfo)
    (hc : 1/2 ≤ o.confidence_score) (hr : 1/5 ≤ o.relevance_score)
    (h : dictGet acc o.id = some info) :
    dictGet (processObservation acc o) o.id =
        some ⟨info.count + 1, info.type, info.relevance, info.confidence⟩
    ∧ ∀ k : String, k ≠ o.id → dictGet (processObservation acc o) k = dictGet acc k := by
  have hrw : processObservation acc o =
      dictUpsert acc o.id ⟨info.count + 1, info.type, info.relevance, info.confidence⟩ := by
    unfold processObservation
    rw [if_neg (by push_neg; exact ⟨hc, hr⟩), h]
  rw [hrw]
  exact ⟨dictGet_upsert_self acc o.id _,
    fun k hk => dictGet_upsert_ne acc k o.id _ hk⟩

theorem repeat_mention_witness :
    dictGet (processObservation accRep obsRep) obsRep.id =
      some ⟨infoRep.count + 1, infoRep.type, infoRep.relevance, infoRep.confidence⟩ :=
  (repeat_mention accRep obsRep infoRep
    (by norm_num [obsRep]) (by norm_num [obsRep]) rfl).1

theorem extract_calls (client : String → Except String (List RawEntityObservation))
    (u : String) : (extract_entities client u).calls = [u] := by
  unfold extract_entities
  cases client u <;> rfl

theorem flatten_singletons (l : List String) :
    (l.map (fun u => [u])).flatten = l := by
  induction l with
  | nil => rfl
  | cons a t ih => simp [ih]

/-- Claim C7: a client failure for a URL is contained inside the
extractor: that URL yields an empty summary together with a warning
naming the URL, and a run whose competitor list contains the failing URL
still completes with a report (the warning appearing among the run's
warnings) instead of aborting. -/
theorem error_boundary (client : String → Except String (List RawEntityObservation))
    (url e : String) (h : client url = Except.error e)
    (apiKey mainUrl : String) (curls : List String)
    (h1 : ¬ apiKey = "") (h2 : ¬ mainUrl = "") (h3 : ¬ curls = [])
    (hmem : url ∈ curls) :
    (extract_entities client url).entities = []
    ∧ (extract_entities client url).warnings
        = ["Error processing " ++ url ++ ": " ++ e]
    ∧ ∃ rows warns,
        (runAnalysis client apiKey mainUrl curls).1 = RunResult.done rows warns
        ∧ ("Error processing " ++ url ++ ": " ++ e) ∈ warns := by
  have hext : extract_entities client url =
      ⟨[], ["Error processing " ++ url ++ ": " ++ e], [url]⟩ := by
    unfold extract_entities
    rw [h]
  refine ⟨by rw [hext], by rw [hext], ?_⟩
  unfold runAnalysis
  rw [if_neg h1, if_neg h2, if_neg h3]
  refine ⟨_, _, rfl, ?_⟩
  apply List.mem_append_right
  rw [List.mem_flatten]
  refine ⟨(extract_entities client url).warnings, ?_, ?_⟩
  · have hpair : (url, extract_entities client url) ∈
        curls.map (fun u => (u, extract_entities client u)) :=
      List.mem_map_of_mem (fun u => (u, extract_entities client u)) hmem
    exact List.mem_map_of_mem (fun p => p.2.warnings) hpair
  · rw [hext]
    simp

theorem error_boundary_witness :
    (extract_entities clientErr "bad").entities = []
    ∧ (extract_entities clientErr "bad").warnings
        = ["Error processing " ++ "bad" ++ ": " ++ "boom"]
    ∧ ∃ rows warns,
        (runAnalysis clientErr "key" "main" ["good", "bad"]).1
            = RunResult.done rows warns
        ∧ ("Error processing " ++ "bad" ++ ": " ++ "boom") ∈ warns :=
  error_boundary clientErr "bad" "boom" rfl "key" "main" ["good", "bad"]
    (by decide) (by decide) (by decide) (by decide)

/-- Claim C8: when the API key is empty, the main URL is empty or the
competitor list is empty, the run reports an input-validation error and
no URL is ever passed to the analysis client; when all three inputs are
present, exactly the main URL followed by the competitor URLs are passed
to the client. -/
theorem input_validation (client : String → Except String (List RawEntityObservation))
    (apiKey mainUrl : String) (curls : List String) :
    (apiKey = "" ∨ mainUrl = "" ∨ curls = [] →
        (∃ msg, (runAnalysis client apiKey mainUrl curls).1 = RunResult.invalid msg)
        ∧ (runAnalysis client apiKey mainUrl curls).2 = [])
    ∧ (¬ apiKey = "" → ¬ mainUrl = "" → ¬ curls = [] →
        (runAnalysis client apiKey mainUrl curls).2 = mainUrl :: curls) := by
  constructor
  · intro h
    by_cases h1 : apiKey = ""
    · exact ⟨⟨"Please provide your TextRazor API key.", by simp [runAnalysis, h1]⟩,
        by simp [runAnalysis, h1]⟩
    · by_cases h2 : mainUrl = ""
      · exact ⟨⟨"Please provide the main URL.", by simp [runAnalysis, h1, h2]⟩,
          by simp [runAnalysis, h1, h2]⟩
      · have h3 : curls = [] := by tauto
        exact ⟨⟨"Please provide at least one competitor URL.",
            by simp [runAnalysis, h1, h2, h3]⟩,
          by simp [runAnalysis, h1, h2, h3]⟩
  · intro h1 h2 h3
    unfold runAnalysis
    rw [if_neg h1, if_neg h2, if_neg h3]
    show (extract_entities client mainUrl).calls ++
        ((curls.map (fun u => (u, extract_entities client u))).map
          (fun p => p.2.calls)).flatten = mainUrl :: curls
    rw [extract_calls, List.map_map]
    have : ((fun p : String × ExtractResult => p.2.calls) ∘
        (fun u => (u, extract_entities client u))) = fun u => [u] := by
      funext u
      exact extract_calls client u
    rw [this, flatten_singletons]
    rfl

theorem input_validation_witness :
    (∃ msg, (runAnalysis clientNone "" "m" ["u"]).1 = RunResult.invalid msg)
    ∧ (runAnalysis clientNone "" "m" ["u"]).2 = [] :=
  (input_validation clientNone "" "m" ["u"]).1 (Or.inl rfl)

theorem classifyTag_eq_specCategory (cur t : String) :
    classifyTag cur t = (specTagCategory t).getD cur := by
  unfold classifyTag specTagCategory
  by_cases h1 : (strContains t "organization" || strContains t "company") = true
  · rw [if_pos h1, if_pos h1]
    rfl
  · rw [if_neg h1, if_neg h1]
    by_cases h2 : strContains t "person" = true
    · rw [if_pos h2, if_pos h2]
      rfl
    · rw [if_neg h2, if_neg h2]
      by_cases h3 : (strContains t "location" || strContains t "place") = true
      · rw [if_pos h3, if_pos h3]
        rfl
      · rw [if_neg h3, if_neg h3]
        rfl

theorem findSome?_append_singleton {α β : Type} (l : List α) (a : α)
    (f : α → Option β) :
    (l ++ [a]).findSome? f =
      match l.findSome? f with
      | some v => some v
      | none => f a := by
  induction l with
  | nil =>
      simp [List.findSome?]
      cases f a <;> rfl
  | cons x xs ih =>
      rw [List.cons_append]
      rw [List.findSome?_cons, List.findSome?_cons]
      cases f x with
      | some v => rfl
      | none => exact ih

theorem foldl_classifyTag_eq (tags : List String) :
    ∀ cur : String,
      tags.foldl classifyTag cur =
        ((tags.reverse.findSome? specTagCategory).getD cur) := by
  induction tags with
  | nil =>
      intro cur
      rfl
  | cons t ts ih =>
      intro cur
      rw [List.foldl_cons, ih, classifyTag_eq_specCategory, List.reverse_cons,
        findSome?_append_singleton]
      cases h : ts.reverse.findSome? specTagCategory with
      | some v => rfl
      | none =>
          cases specTagCategory t <;> rfl

/-- Claim C9: the entity type assigned by the extractor equals the
category of the last tag, in scan order, matching any of the category
substrings (Organization for "organization"/"company", Person for
"person", Location for "location"/"place"), and "Other" when no tag
matches. -/
theorem entityType_lastMatch (tags : List String) :
    entityType tags = ((tags.reverse.findSome? specTagCategory).getD "Other") :=
  foldl_classifyTag_eq tags "Other"

/-- Claim C10: within a single tag the classifier applies a fixed
priority: an "organization"/"company" substring wins over "person",
which wins over "location"/"place"; so a tag containing both "person"
and "organization" yields Organization. -/
theorem tag_category_priority (cur t : String) :
    ((strContains t "organization" = true ∨ strContains t "company" = true) →
        classifyTag cur t = "Organization")
    ∧ (strContains t "organization" = false → strContains t "company" = false →
        strContains t "person" = true → classifyTag cur t = "Person")
    ∧ (strContains t "organization" = false → strContains t "company" = false →
        strContains t "person" = false →
        (strContains t "location" = true ∨ strContains t "place" = true) →
        classifyTag cur t = "Location") := by
  unfold classifyTag
  refine ⟨?_, ?_, ?_⟩
  · rintro (h | h) <;> simp [h]
  · intro h1 h2 h3
    simp [h1, h2, h3]
  · intro h1 h2 h3 h4
    rcases h4 with h | h <;> simp [h1, h2, h3, h]

theorem tag_category_priority_witness :
    classifyTag "Other" "/organization/person" = "Organization" :=
  (tag_category_priority "Other" "/organization/person").1 (Or.inl (by decide))
